import Mathlib

set_option maxRecDepth 8192

set_option linter.unusedVariables false

/-!
Verification of the reverse-TCP client/server pair (reversetcpclient.py,
reversetcpserver.py).  Byte sequences are modelled as `List Nat` (each entry a
byte value), machine integers as `Nat` with explicit bounds, and the network
as an explicit oracle supplying the outcome of each blocking call.
-/

/-! Message type constants (both files, lines 10-14). -/

def INITIALIZATION : Nat := 1

def AGREE : Nat := 2

def REVERSE_REQUEST : Nat := 3

def REVERSE_ANSWER : Nat := 4

/-- Range of a 4-byte unsigned field. -/
def U32 : Nat := 4294967296

/-- Big-endian 2-byte encoding, as produced by pack with format "!H". -/
def u16be (t : Nat) : List Nat := [t / 256 % 256, t % 256]

/-- Big-endian 4-byte encoding, as produced by pack with format "!I". -/
def u32be (n : Nat) : List Nat :=
  [n / 16777216 % 256, n / 65536 % 256, n / 256 % 256, n % 256]

/-- Big-endian 2-byte decode of the first two bytes, unpack with format "!H". -/
def u16at (data : List Nat) : Nat := data.getD 0 0 * 256 + data.getD 1 0

/-- Big-endian 4-byte decode of bytes i..i+3, unpack with format "!I". -/
def u32at (data : List Nat) (i : Nat) : Nat :=
  ((data.getD i 0 * 256 + data.getD (i + 1) 0) * 256 + data.getD (i + 2) 0) * 256
    + data.getD (i + 3) 0

/-- Second argument of create_packet: a block count, a byte payload, or the
default None. -/
inductive PacketArg
  | nat (n : Nat)
  | bytes (b : List Nat)
  | nil
  deriving DecidableEq

/-- Data component of the pair returned by parse_packet: None, an integer
(block count), or a decoded text (kept as its byte sequence; the ASCII codec
maps bytes below 128 one-to-one to characters). -/
inductive PVal
  | nil
  | num (n : Nat)
  | text (b : List Nat)
  deriving DecidableEq

/-- Observable outcome of parse_packet: a normal return of the pair
(packet_type, value) with packet_type None on no parse, or a raised
UnicodeDecodeError from decoding a non-ASCII payload. -/
inductive ParseRes
  | ret (t : Option Nat) (v : PVal)
  | exn
  deriving DecidableEq

/-- create_packet of reversetcpclient.py (lines 20-31): builds INITIALIZATION
and REVERSE_REQUEST packets, returns None for other types. -/
def create_packet_c (packet_type : Nat) (data : PacketArg) : Option (List Nat) :=
  if packet_type = INITIALIZATION then
    match data with
    | .nat n => some (u16be INITIALIZATION ++ u32be n)
    | _ => none
  else if packet_type = REVERSE_REQUEST then
    match data with
    | .bytes b => some (u16be REVERSE_REQUEST ++ u32be b.length ++ b)
    | _ => none
  else none

/-- create_packet of reversetcpserver.py (lines 25-33): builds AGREE and
REVERSE_ANSWER packets, returns None for other types. -/
def create_packet_s (packet_type : Nat) (data : PacketArg) : Option (List Nat) :=
  if packet_type = AGREE then some (u16be AGREE)
  else if packet_type = REVERSE_ANSWER then
    match data with
    | .bytes b => some (u16be REVERSE_ANSWER ++ u32be b.length ++ b)
    | _ => none
  else none

/-- parse_packet of reversetcpserver.py (lines 35-51): recognises
INITIALIZATION and REVERSE_REQUEST; short or unrecognised input yields the
(None, None) return; a non-ASCII payload byte makes the ASCII decode raise. -/
def parse_packet_s (data : List Nat) : ParseRes :=
  if data.length < 2 then .ret none .nil
  else if u16at data = INITIALIZATION ∧ 6 ≤ data.length then
    .ret (some INITIALIZATION) (.num (u32at data 2))
  else if u16at data = REVERSE_REQUEST ∧ 6 ≤ data.length then
    if 6 + u32at data 2 ≤ data.length then
      if ((data.drop 6).take (u32at data 2)).all (fun x => decide (x < 128)) = true then
        .ret (some REVERSE_REQUEST) (.text ((data.drop 6).take (u32at data 2)))
      else .exn
    else .ret none .nil
  else .ret none .nil

/-- parse_packet of reversetcpclient.py (lines 33-50): recognises AGREE and
REVERSE_ANSWER; short or unrecognised input yields the (None, None) return;
a non-ASCII payload byte makes the ASCII decode raise. -/
def parse_packet_c (data : List Nat) : ParseRes :=
  if data.length < 2 then .ret none .nil
  else if u16at data = AGREE then .ret (some AGREE) .nil
  else if u16at data = REVERSE_ANSWER ∧ 6 ≤ data.length then
    if 6 + u32at data 2 ≤ data.length then
      if ((data.drop 6).take (u32at data 2)).all (fun x => decide (x < 128)) = true then
        .ret (some REVERSE_ANSWER) (.text ((data.drop 6).take (u32at data 2)))
      else .exn
    else .ret none .nil
  else .ret none .nil

/-! Helper lemmas about the byte-level fields. -/

lemma u32at_cons2 (a b n : Nat) (rest : List Nat) (h : n < U32) :
    u32at (a :: b :: (u32be n ++ rest)) 2 = n := by
  have e : u32at (a :: b :: (u32be n ++ rest)) 2 =
      ((n / 16777216 % 256 * 256 + n / 65536 % 256) * 256 + n / 256 % 256) * 256
        + n % 256 := rfl
  have h4 : n < 4294967296 := h
  rw [e]
  omega

lemma parse_s_init (n : Nat) (hn : n < U32) :
    parse_packet_s (u16be INITIALIZATION ++ u32be n) =
      .ret (some INITIALIZATION) (.num n) := by
  have hlen : (u16be INITIALIZATION ++ u32be n).length = 6 := rfl
  have htag : u16at (u16be INITIALIZATION ++ u32be n) = 1 := rfl
  have hval : u32at (u16be INITIALIZATION ++ u32be n) 2 = n := by
    have h2 := u32at_cons2 0 1 n [] hn
    rw [List.append_nil] at h2
    exact h2
  unfold parse_packet_s
  rw [hlen, htag, hval]
  rw [if_neg (by omega)]
  rw [if_pos (by exact ⟨rfl, by omega⟩)]

lemma parse_s_request_eval (p : List Nat) (hl : p.length < U32) :
    parse_packet_s (u16be REVERSE_REQUEST ++ u32be p.length ++ p) =
      if p.all (fun x => decide (x < 128)) = true then
        .ret (some REVERSE_REQUEST) (.text p)
      else .exn := by
  have hlen : (u16be REVERSE_REQUEST ++ u32be p.length ++ p).length = 6 + p.length := by
    simp [u16be, u32be]
    omega
  have htag : u16at (u16be REVERSE_REQUEST ++ u32be p.length ++ p) = 3 := rfl
  have hval : u32at (u16be REVERSE_REQUEST ++ u32be p.length ++ p) 2 = p.length :=
    u32at_cons2 0 3 p.length p hl
  have hdrop : (u16be REVERSE_REQUEST ++ u32be p.length ++ p).drop 6 = p := rfl
  unfold parse_packet_s
  rw [hlen, htag, hval, hdrop]
  rw [if_neg (by omega)]
  rw [if_neg (by simp [INITIALIZATION])]
  rw [if_pos (by exact ⟨rfl, by omega⟩)]
  rw [if_pos (by omega)]
  rw [List.take_length]

lemma parse_s_request (p : List Nat) (hl : p.length < U32)
    (ha : p.all (fun x => decide (x < 128)) = true) :
    parse_packet_s (u16be REVERSE_REQUEST ++ u32be p.length ++ p) =
      .ret (some REVERSE_REQUEST) (.text p) := by
  rw [parse_s_request_eval p hl, if_pos ha]

lemma parse_c_agree : parse_packet_c (u16be AGREE) = .ret (some AGREE) .nil := rfl

lemma parse_c_answer_eval (p : List Nat) (hl : p.length < U32) :
    parse_packet_c (u16be REVERSE_ANSWER ++ u32be p.length ++ p) =
      if p.all (fun x => decide (x < 128)) = true then
        .ret (some REVERSE_ANSWER) (.text p)
      else .exn := by
  have hlen : (u16be REVERSE_ANSWER ++ u32be p.length ++ p).length = 6 + p.length := by
    simp [u16be, u32be]
    omega
  have htag : u16at (u16be REVERSE_ANSWER ++ u32be p.length ++ p) = 4 := rfl
  have hval : u32at (u16be REVERSE_ANSWER ++ u32be p.length ++ p) 2 = p.length :=
    u32at_cons2 0 4 p.length p hl
  have hdrop : (u16be REVERSE_ANSWER ++ u32be p.length ++ p).drop 6 = p := rfl
  unfold parse_packet_c
  rw [hlen, htag, hval, hdrop]
  rw [if_neg (by omega)]
  rw [if_neg (by simp [AGREE])]
  rw [if_pos (by exact ⟨rfl, by omega⟩)]
  rw [if_pos (by omega)]
  rw [List.take_length]

lemma parse_c_answer (p : List Nat) (hl : p.length < U32)
    (ha : p.all (fun x => decide (x < 128)) = true) :
    parse_packet_c (u16be REVERSE_ANSWER ++ u32be p.length ++ p) =
      .ret (some REVERSE_ANSWER) (.text p) := by
  rw [parse_c_answer_eval p hl, if_pos ha]

/-- Claim C4: decoding the encoding of every constructible message recovers
the message: the server parse applied to the client encodings of Init and
Request yields the block count and the payload back, and the client parse
applied to the server encodings of Agree and Answer yields Agree and the
payload back. -/
theorem codec_roundtrip (n : Nat) (p : List Nat) (hn : n < U32)
    (hp : p.all (fun x => decide (x < 128)) = true) (hl : p.length < U32) :
    (∃ bs, create_packet_c INITIALIZATION (.nat n) = some bs ∧
        parse_packet_s bs = .ret (some INITIALIZATION) (.num n))
    ∧ (∃ bs, create_packet_c REVERSE_REQUEST (.bytes p) = some bs ∧
        parse_packet_s bs = .ret (some REVERSE_REQUEST) (.text p))
    ∧ (create_packet_s AGREE .nil = some (u16be AGREE) ∧
        parse_packet_c (u16be AGREE) = .ret (some AGREE) .nil)
    ∧ (∃ bs, create_packet_s REVERSE_ANSWER (.bytes p) = some bs ∧
        parse_packet_c bs = .ret (some REVERSE_ANSWER) (.text p)) := by
  refine ⟨⟨_, rfl, parse_s_init n hn⟩, ⟨_, rfl, ?_⟩, ⟨rfl, parse_c_agree⟩,
    ⟨_, rfl, ?_⟩⟩
  · exact parse_s_request p hl hp
  · exact parse_c_answer p hl hp

/-- Witness for C4 at the concrete message set with block count 7 and payload
[104, 105]. -/
theorem codec_roundtrip_witness :
    (∃ bs, create_packet_c INITIALIZATION (.nat 7) = some bs ∧
        parse_packet_s bs = .ret (some INITIALIZATION) (.num 7))
    ∧ (∃ bs, create_packet_c REVERSE_REQUEST (.bytes [104, 105]) = some bs ∧
        parse_packet_s bs = .ret (some REVERSE_REQUEST) (.text [104, 105]))
    ∧ (create_packet_s AGREE .nil = some (u16be AGREE) ∧
        parse_packet_c (u16be AGREE) = .ret (some AGREE) .nil)
    ∧ (∃ bs, create_packet_s REVERSE_ANSWER (.bytes [104, 105]) = some bs ∧
        parse_packet_c bs = .ret (some REVERSE_ANSWER) (.text [104, 105])) :=
  codec_roundtrip 7 [104, 105] (by decide) (by decide) (by decide)

/-! Truncated buffers (claim C5). -/

lemma getD_take (l : List Nat) (k i : Nat) (h : i < k) :
    (l.take k).getD i 0 = l.getD i 0 := by
  induction l generalizing k i with
  | nil => simp
  | cons x xs ih =>
    cases k with
    | zero => omega
    | succ k =>
      cases i with
      | zero => simp
      | succ i => simpa using ih k i (by omega)

lemma parse_s_init_take (n k : Nat) (hk : k < 6) :
    parse_packet_s ((u16be INITIALIZATION ++ u32be n).take k) = .ret none .nil := by
  have hlenbs : (u16be INITIALIZATION ++ u32be n).length = 6 := rfl
  have hlen : ((u16be INITIALIZATION ++ u32be n).take k).length = k := by
    rw [List.length_take, hlenbs]
    omega
  by_cases h2 : k < 2
  · unfold parse_packet_s
    rw [hlen, if_pos h2]
  · have htag : u16at ((u16be INITIALIZATION ++ u32be n).take k) = 1 := by
      have e0 := getD_take (u16be INITIALIZATION ++ u32be n) k 0 (by omega)
      have e1 := getD_take (u16be INITIALIZATION ++ u32be n) k 1 (by omega)
      have hb : u16at (u16be INITIALIZATION ++ u32be n) = 1 := rfl
      unfold u16at at hb ⊢
      rw [e0, e1]
      exact hb
    unfold parse_packet_s
    rw [hlen, htag]
    rw [if_neg (by omega)]
    rw [if_neg (by intro hc; exact absurd hc.2 (by omega))]
    rw [if_neg (by simp [REVERSE_REQUEST])]

lemma parse_s_request_take (p : List Nat) (k : Nat) (hl : p.length < U32)
    (hk : k < 6 + p.length) :
    parse_packet_s ((u16be REVERSE_REQUEST ++ u32be p.length ++ p).take k) =
      .ret none .nil := by
  have hlenbs : (u16be REVERSE_REQUEST ++ u32be p.length ++ p).length = 6 + p.length := by
    simp [u16be, u32be]
    omega
  have hlen : ((u16be REVERSE_REQUEST ++ u32be p.length ++ p).take k).length = k := by
    rw [List.length_take, hlenbs]
    omega
  by_cases h2 : k < 2
  · unfold parse_packet_s
    rw [hlen, if_pos h2]
  · have htag : u16at ((u16be REVERSE_REQUEST ++ u32be p.length ++ p).take k) = 3 := by
      have e0 := getD_take (u16be REVERSE_REQUEST ++ u32be p.length ++ p) k 0 (by omega)
      have e1 := getD_take (u16be REVERSE_REQUEST ++ u32be p.length ++ p) k 1 (by omega)
      have hb : u16at (u16be REVERSE_REQUEST ++ u32be p.length ++ p) = 3 := rfl
      unfold u16at at hb ⊢
      rw [e0, e1]
      exact hb
    unfold parse_packet_s
    rw [hlen, htag]
    rw [if_neg (by omega)]
    rw [if_neg (by simp [INITIALIZATION])]
    by_cases h6 : 6 ≤ k
    · have hval : u32at ((u16be REVERSE_REQUEST ++ u32be p.length ++ p).take k) 2
          = p.length := by
        have e2 := getD_take (u16be REVERSE_REQUEST ++ u32be p.length ++ p) k 2 (by omega)
        have e3 := getD_take (u16be REVERSE_REQUEST ++ u32be p.length ++ p) k 3 (by omega)
        have e4 := getD_take (u16be REVERSE_REQUEST ++ u32be p.length ++ p) k 4 (by omega)
        have e5 := getD_take (u16be REVERSE_REQUEST ++ u32be p.length ++ p) k 5 (by omega)
        have hb : u32at (u16be REVERSE_REQUEST ++ u32be p.length ++ p) 2 = p.length :=
          u32at_cons2 0 3 p.length p hl
        unfold u32at at hb ⊢
        rw [e2, e3, e4, e5]
        exact hb
      rw [if_pos (by exact ⟨rfl, h6⟩), hval]
      rw [if_neg (by omega)]
    · rw [if_neg (by intro hc; exact h6 hc.2)]

lemma parse_c_agree_take (k : Nat) (hk : k < 2) :
    parse_packet_c ((u16be AGREE).take k) = .ret none .nil := by
  interval_cases k <;> decide

lemma parse_c_answer_take (p : List Nat) (k : Nat) (hl : p.length < U32)
    (hk : k < 6 + p.length) :
    parse_packet_c ((u16be REVERSE_ANSWER ++ u32be p.length ++ p).take k) =
      .ret none .nil := by
  have hlenbs : (u16be REVERSE_ANSWER ++ u32be p.length ++ p).length = 6 + p.length := by
    simp [u16be, u32be]
    omega
  have hlen : ((u16be REVERSE_ANSWER ++ u32be p.length ++ p).take k).length = k := by
    rw [List.length_take, hlenbs]
    omega
  by_cases h2 : k < 2
  · unfold parse_packet_c
    rw [hlen, if_pos h2]
  · have htag : u16at ((u16be REVERSE_ANSWER ++ u32be p.length ++ p).take k) = 4 := by
      have e0 := getD_take (u16be REVERSE_ANSWER ++ u32be p.length ++ p) k 0 (by omega)
      have e1 := getD_take (u16be REVERSE_ANSWER ++ u32be p.length ++ p) k 1 (by omega)
      have hb : u16at (u16be REVERSE_ANSWER ++ u32be p.length ++ p) = 4 := rfl
      unfold u16at at hb ⊢
      rw [e0, e1]
      exact hb
    unfold parse_packet_c
    rw [hlen, htag]
    rw [if_neg (by omega)]
    rw [if_neg (by simp [AGREE])]
    by_cases h6 : 6 ≤ k
    · have hval : u32at ((u16be REVERSE_ANSWER ++ u32be p.length ++ p).take k) 2
          = p.length := by
        have e2 := getD_take (u16be REVERSE_ANSWER ++ u32be p.length ++ p) k 2 (by omega)
        have e3 := getD_take (u16be REVERSE_ANSWER ++ u32be p.length ++ p) k 3 (by omega)
        have e4 := getD_take (u16be REVERSE_ANSWER ++ u32be p.length ++ p) k 4 (by omega)
        have e5 := getD_take (u16be REVERSE_ANSWER ++ u32be p.length ++ p) k 5 (by omega)
        have hb : u32at (u16be REVERSE_ANSWER ++ u32be p.length ++ p) 2 = p.length :=
          u32at_cons2 0 4 p.length p hl
        unfold u32at at hb ⊢
        rw [e2, e3, e4, e5]
        exact hb
      rw [if_pos (by exact ⟨rfl, h6⟩), hval]
      rw [if_neg (by omega)]
    · rw [if_neg (by intro hc; exact h6 hc.2)]

/-- Claim C5: decoding any strict prefix of a valid encoded message returns
the no-parse value (None, None) -- the code folds NeedMoreData into this
single value -- and in particular never raises and never reports a parse of
a different kind. -/
theorem truncated_decode (n k : Nat) (p : List Nat) (hn : n < U32)
    (hl : p.length < U32) :
    (k < 6 → parse_packet_s ((u16be INITIALIZATION ++ u32be n).take k) = .ret none .nil)
    ∧ (k < 6 + p.length →
        parse_packet_s ((u16be REVERSE_REQUEST ++ u32be p.length ++ p).take k) =
          .ret none .nil)
    ∧ (k < 2 → parse_packet_c ((u16be AGREE).take k) = .ret none .nil)
    ∧ (k < 6 + p.length →
        parse_packet_c ((u16be REVERSE_ANSWER ++ u32be p.length ++ p).take k) =
          .ret none .nil) :=
  ⟨fun hk => parse_s_init_take n k hk,
   fun hk => parse_s_request_take p k hl hk,
   fun hk => parse_c_agree_take k hk,
   fun hk => parse_c_answer_take p k hl hk⟩

/-- Witness for C5: a 3-byte prefix of each payload-bearing message and a
1-byte prefix of Agree all decode to the no-parse value. -/
theorem truncated_decode_witness :
    parse_packet_s ((u16be INITIALIZATION ++ u32be 5).take 3) = .ret none .nil
    ∧ parse_packet_s ((u16be REVERSE_REQUEST ++ u32be 2 ++ [104, 105]).take 3) =
        .ret none .nil
    ∧ parse_packet_c ((u16be AGREE).take 1) = .ret none .nil
    ∧ parse_packet_c ((u16be REVERSE_ANSWER ++ u32be 2 ++ [104, 105]).take 3) =
        .ret none .nil := by
  have h := truncated_decode 5 3 [104, 105] (by decide) (by decide)
  have h1 := truncated_decode 5 1 [104, 105] (by decide) (by decide)
  exact ⟨h.1 (by decide), h.2.1 (by decide), h1.2.2.1 (by decide), h.2.2.2 (by decide)⟩

/-- Claim C6 counterexample: a well-framed Request (tag 3, declared length 1,
one payload byte present) whose payload byte is 200 makes the server
parse_packet raise from the ASCII decode, and likewise a well-framed Answer
makes the client parse_packet raise: the codec itself rejects non-ASCII
payload bytes rather than treating payloads as opaque. -/
theorem codec_ascii_counterexample :
    parse_packet_s [0, 3, 0, 0, 0, 1, 200] = .exn ∧
    parse_packet_c [0, 4, 0, 0, 0, 1, 200] = .exn := by decide

/-- Claim C6 (amended): for a well-framed Request or Answer, decode succeeds
exactly when every payload byte is below 128; otherwise the ASCII decode
inside parse_packet raises.  ASCII validation thus happens inside the codec
(in addition to the client-side printable-ASCII check on the input file). -/
theorem codec_ascii_gate (p : List Nat) (hl : p.length < U32) :
    (parse_packet_s (u16be REVERSE_REQUEST ++ u32be p.length ++ p) =
      if p.all (fun x => decide (x < 128)) = true then
        .ret (some REVERSE_REQUEST) (.text p)
      else .exn)
    ∧ (parse_packet_c (u16be REVERSE_ANSWER ++ u32be p.length ++ p) =
      if p.all (fun x => decide (x < 128)) = true then
        .ret (some REVERSE_ANSWER) (.text p)
      else .exn) :=
  ⟨parse_s_request_eval p hl, parse_c_answer_eval p hl⟩

/-- Witness for the amended C6 at the concrete non-ASCII payload [200]. -/
theorem codec_ascii_gate_witness :
    parse_packet_s (u16be REVERSE_REQUEST ++ u32be [200].length ++ [200]) = .exn ∧
    parse_packet_c (u16be REVERSE_ANSWER ++ u32be [200].length ++ [200]) = .exn := by
  have h := codec_ascii_gate [200] (by decide)
  exact ⟨h.1.trans (by decide), h.2.trans (by decide)⟩

/-! Chunk generation (reversetcpclient.py, lines 97-113).  The while loop is
modelled with the remaining text as an explicit list; rnd k is the value of
the k-th call of random.randint(Lmin, Lmax).  The fuel argument bounds the
iteration count; content.length suffices whenever every draw is positive,
which the CLI validation Lmin > 0 guarantees. -/

def split_go (rnd : Nat → Nat) : Nat → List Nat → Nat → List (List Nat)
  | 0, _, _ => []
  | fuel + 1, content, k =>
    if content = [] then []
    else content.take (rnd k) :: split_go rnd fuel (content.drop (rnd k)) (k + 1)

/-- The block list produced by the splitting loop of the client main. -/
def split_blocks (rnd : Nat → Nat) (content : List Nat) : List (List Nat) :=
  split_go rnd content.length content 0

lemma split_go_nil (rnd : Nat → Nat) (fuel k : Nat) : split_go rnd fuel [] k = [] := by
  cases fuel <;> simp [split_go]

lemma split_go_flatten (rnd : Nat → Nat) (hr : ∀ k, 1 ≤ rnd k) :
    ∀ fuel content k, content.length ≤ fuel →
      (split_go rnd fuel content k).flatten = content := by
  intro fuel
  induction fuel with
  | zero =>
    intro content k h
    have hc : content = [] := List.eq_nil_of_length_eq_zero (by omega)
    subst hc
    simp [split_go]
  | succ fuel ih =>
    intro content k h
    by_cases hc : content = []
    · subst hc
      simp [split_go]
    · rw [split_go, if_neg hc, List.flatten_cons]
      rw [ih (content.drop (rnd k)) (k + 1) ?_]
      · exact List.take_append_drop _ _
      · have h1 : 0 < content.length := List.length_pos.mpr hc
        have h2 := hr k
        rw [List.length_drop]
        omega

lemma split_go_ne_nil_mem (rnd : Nat → Nat) (hr : ∀ k, 1 ≤ rnd k) :
    ∀ fuel content k, ∀ b ∈ split_go rnd fuel content k, b ≠ [] := by
  intro fuel
  induction fuel with
  | zero =>
    intro content k b hb
    simp [split_go] at hb
  | succ fuel ih =>
    intro content k b hb
    by_cases hc : content = []
    · subst hc
      simp [split_go] at hb
    · rw [split_go, if_neg hc] at hb
      rcases List.mem_cons.mp hb with rfl | hb
      · rw [Ne, List.take_eq_nil_iff]
        push_neg
        exact ⟨by have := hr k; omega, hc⟩
      · exact ih _ _ b hb

lemma split_go_dropLast (rnd : Nat → Nat) (Lmin Lmax : Nat)
    (hr : ∀ k, Lmin ≤ rnd k ∧ rnd k ≤ Lmax) (h1 : 0 < Lmin) :
    ∀ fuel content k, content.length ≤ fuel →
      ∀ b ∈ (split_go rnd fuel content k).dropLast,
        Lmin ≤ b.length ∧ b.length ≤ Lmax := by
  intro fuel
  induction fuel with
  | zero =>
    intro content k h b hb
    have hc : content = [] := List.eq_nil_of_length_eq_zero (by omega)
    subst hc
    simp [split_go] at hb
  | succ fuel ih =>
    intro content k h b hb
    by_cases hc : content = []
    · subst hc
      simp [split_go] at hb
    · rw [split_go, if_neg hc] at hb
      rcases he : split_go rnd fuel (content.drop (rnd k)) (k + 1) with _ | ⟨y, ys⟩
      · rw [he] at hb
        simp at hb
      · rw [he, List.dropLast_cons₂, List.mem_cons] at hb
        have hdlen : (content.drop (rnd k)).length ≤ fuel := by
          have hp : 0 < content.length := List.length_pos.mpr hc
          have := (hr k).1
          rw [List.length_drop]
          omega
        rcases hb with rfl | hb
        · have hdne : content.drop (rnd k) ≠ [] := by
            intro h0
            rw [h0, split_go_nil] at he
            exact List.noConfusion he
          have hlt : rnd k < content.length := by
            have hp : 0 < (content.drop (rnd k)).length := List.length_pos.mpr hdne
            rw [List.length_drop] at hp
            omega
          rw [List.length_take]
          exact ⟨by have := (hr k).1; omega, by have := (hr k).2; omega⟩
        · have := ih (content.drop (rnd k)) (k + 1) hdlen b
          rw [he] at this
          exact this hb

/-- Claim C2: for a non-empty text and valid bounds 0 < Lmin <= Lmax, with
every random draw in [Lmin, Lmax], the splitting loop yields only non-empty
blocks, every block except possibly the last has length within [Lmin, Lmax],
and the concatenation of the blocks is the original text (so the last block
is exactly the remainder). -/
theorem split_blocks_spec (rnd : Nat → Nat) (Lmin Lmax : Nat) (content : List Nat)
    (hmin : 0 < Lmin) (hmm : Lmin ≤ Lmax)
    (hr : ∀ k, Lmin ≤ rnd k ∧ rnd k ≤ Lmax) (hcon : 0 < content.length) :
    (∀ b ∈ split_blocks rnd content, b ≠ [])
    ∧ (∀ b ∈ (split_blocks rnd content).dropLast, Lmin ≤ b.length ∧ b.length ≤ Lmax)
    ∧ (split_blocks rnd content).flatten = content := by
  have h1 : ∀ k, 1 ≤ rnd k := fun k => le_trans hmin (hr k).1
  exact ⟨split_go_ne_nil_mem rnd h1 _ _ _,
    split_go_dropLast rnd Lmin Lmax hr hmin _ _ _ le_rfl,
    split_go_flatten rnd h1 _ _ _ le_rfl⟩

/-- The character codes of the text hello world. -/
def hwText : List Nat := [104, 101, 108, 108, 111, 32, 119, 111, 114, 108, 100]

/-- Witness for C2: the hello world text split with Lmin = Lmax = 5. -/
theorem split_blocks_spec_witness :
    (∀ b ∈ split_blocks (fun _ => 5) hwText, b ≠ [])
    ∧ (∀ b ∈ (split_blocks (fun _ => 5) hwText).dropLast,
        5 ≤ b.length ∧ b.length ≤ 5)
    ∧ (split_blocks (fun _ => 5) hwText).flatten = hwText :=
  split_blocks_spec (fun _ => 5) 5 5 hwText (by decide) (by decide)
    (fun k => ⟨le_rfl, le_rfl⟩) (by decide)

/-! Client orchestrator (reversetcpclient.py main, lines 116-240).  The
network is an oracle giving the outcome of each blocking socket operation:
the connect, the sendall of the Init packet, the recv(2) of the Agree packet,
and per chunk index the sendall of the Request, the recv(6) of the Answer
header and the accumulated recv loop of the Answer body. -/

inductive RecvRes
  | ok (bs : List Nat)
  | err
  deriving DecidableEq

structure ClientNet where
  connectOk : Bool
  initSendOk : Bool
  agreeRecv : RecvRes
  sendOk : Nat → Bool
  headerRecv : Nat → RecvRes
  bodyRecv : Nat → RecvRes

/-- A protocol-level message on the wire. -/
inductive WireMsg
  | init (n : Nat)
  | request (payload : List Nat)
  | agree
  | answer (payload : List Nat)
  deriving DecidableEq

/-- Observable result of one client run: the messages it sent, the
reversed_blocks array, and the output file content (None when no file is
written). -/
structure ClientResult where
  sends : List WireMsg
  reversed_blocks : List (Option (List Nat))
  output : Option (List Nat)

/-- One iteration of the per-chunk receive steps (lines 179-230): recv the
6-byte header, extract the length field, accumulate the body, parse
header + body and keep the text when the type is REVERSE_ANSWER; every
failure breaks the loop (None). -/
def client_chunk (net : ClientNet) (i : Nat) : Option (List Nat) :=
  match net.headerRecv i with
  | .err => none
  | .ok header =>
    if header.length < 6 then none
    else
      match net.bodyRecv i with
      | .err => none
      | .ok reversed_data =>
        if reversed_data.length < u32at header 2 then none
        else
          match parse_packet_c (header ++ reversed_data) with
          | .exn => none
          | .ret t v =>
            if t = some REVERSE_ANSWER then
              match v with
              | .text s => some s
              | _ => none
            else none

/-- The per-chunk for loop (lines 166-230) starting at index i: returns the
Request messages actually sent and the reversed_blocks entries from index i
on; a break leaves every remaining entry None. -/
def client_loop (net : ClientNet) (blocks : List (List Nat)) (i : Nat) :
    List WireMsg × List (Option (List Nat)) :=
  match blocks with
  | [] => ([], [])
  | b :: rest =>
    if net.sendOk i = true then
      match client_chunk net i with
      | none => ([WireMsg.request b], none :: rest.map (fun _ => none))
      | some s =>
        (WireMsg.request b :: (client_loop net rest (i + 1)).1,
         some s :: (client_loop net rest (i + 1)).2)
    else ([], none :: rest.map (fun _ => none))

/-- The whole client run after splitting (lines 116-240): connect, send
Init{n}, await Agree, run the chunk loop, and write the output file only when
every reversed_blocks entry is set. -/
def client_run (net : ClientNet) (blocks : List (List Nat)) : ClientResult :=
  if net.connectOk = false then
    ⟨[], blocks.map (fun _ => (none : Option (List Nat))), none⟩
  else if net.initSendOk = false then
    ⟨[], blocks.map (fun _ => (none : Option (List Nat))), none⟩
  else
    match net.agreeRecv with
    | .err => ⟨[WireMsg.init blocks.length],
        blocks.map (fun _ => (none : Option (List Nat))), none⟩
    | .ok data =>
      if data.length < 2 then
        ⟨[WireMsg.init blocks.length],
         blocks.map (fun _ => (none : Option (List Nat))), none⟩
      else
        match parse_packet_c data with
        | .exn => ⟨[WireMsg.init blocks.length],
            blocks.map (fun _ => (none : Option (List Nat))), none⟩
        | .ret t v =>
          if t = some AGREE then
            ⟨WireMsg.init blocks.length :: (client_loop net blocks 0).1,
             (client_loop net blocks 0).2,
             if (client_loop net blocks 0).2.all Option.isSome = true then
               some (((client_loop net blocks 0).2.map (fun r => r.getD [])).flatten)
             else none⟩
          else ⟨[WireMsg.init blocks.length],
            blocks.map (fun _ => (none : Option (List Nat))), none⟩

/-- The handshake guards of steps 4-6 all passed: connect succeeded, the Init
packet was sent, and a buffer of at least 2 bytes parsing as AGREE was
received. -/
def handshakeOk (net : ClientNet) : Prop :=
  net.connectOk = true ∧ net.initSendOk = true ∧
  ∃ d v, net.agreeRecv = .ok d ∧ ¬ d.length < 2 ∧
    parse_packet_c d = .ret (some AGREE) v

/-- Every block is printable-ASCII-compatible (bytes below 128) and shorter
than 2 to the 32, as guaranteed for real runs by the client-side validation
of the input file. -/
def asciiBlocks (blocks : List (List Nat)) : Bool :=
  blocks.all fun b => b.all (fun x => decide (x < 128)) && decide (b.length < U32)

/-- The oracle behaves like the actual server: each chunk exchange succeeds
and returns a well-formed Answer carrying the reversal of the block. -/
def respondsAsReverser (net : ClientNet) (blocks : List (List Nat)) : Prop :=
  ∀ j, j < blocks.length →
    net.sendOk j = true ∧
    net.headerRecv j = .ok (u16be REVERSE_ANSWER ++ u32be (blocks.getD j []).length) ∧
    net.bodyRecv j = .ok ((blocks.getD j []).reverse)

lemma client_run_hs (net : ClientNet) (blocks : List (List Nat))
    (hhs : handshakeOk net) :
    client_run net blocks =
      ⟨WireMsg.init blocks.length :: (client_loop net blocks 0).1,
       (client_loop net blocks 0).2,
       if (client_loop net blocks 0).2.all Option.isSome = true then
         some (((client_loop net blocks 0).2.map (fun r => r.getD [])).flatten)
       else none⟩ := by
  obtain ⟨hc, hi, d, v, hd, hdl, hp⟩ := hhs
  unfold client_run
  rw [hc, hi, hd]
  simp [hp, hdl]

lemma client_run_hs_sends (net : ClientNet) (blocks : List (List Nat))
    (hhs : handshakeOk net) :
    (client_run net blocks).sends =
      WireMsg.init blocks.length :: (client_loop net blocks 0).1 := by
  rw [client_run_hs net blocks hhs]

lemma client_run_hs_results (net : ClientNet) (blocks : List (List Nat))
    (hhs : handshakeOk net) :
    (client_run net blocks).reversed_blocks = (client_loop net blocks 0).2 := by
  rw [client_run_hs net blocks hhs]

lemma client_run_hs_output (net : ClientNet) (blocks : List (List Nat))
    (hhs : handshakeOk net) :
    (client_run net blocks).output =
      if (client_loop net blocks 0).2.all Option.isSome = true then
        some (((client_loop net blocks 0).2.map (fun r => r.getD [])).flatten)
      else none := by
  rw [client_run_hs net blocks hhs]

lemma client_run_abort (net : ClientNet) (blocks : List (List Nat))
    (h : ¬ handshakeOk net) :
    ((client_run net blocks).sends = []
      ∨ (client_run net blocks).sends = [WireMsg.init blocks.length])
    ∧ (client_run net blocks).output = none := by
  rcases hcb : net.connectOk with _ | _
  · simp [client_run, hcb]
  · rcases hib : net.initSendOk with _ | _
    · simp [client_run, hcb, hib]
    · rcases hd : net.agreeRecv with bs | _
      · by_cases hlen : bs.length < 2
        · simp [client_run, hcb, hib, hd, hlen]
        · cases hp : parse_packet_c bs with
          | ret t v =>
            by_cases ht : t = some AGREE
            · subst ht
              exact absurd ⟨hcb, hib, bs, v, hd, hlen, hp⟩ h
            · simp [client_run, hcb, hib, hd, hlen, hp, ht]
          | exn => simp [client_run, hcb, hib, hd, hlen, hp]
      · simp [client_run, hcb, hib, hd]

lemma client_chunk_good (net : ClientNet) (i : Nat) (b : List Nat)
    (hh : net.headerRecv i = .ok (u16be REVERSE_ANSWER ++ u32be b.length))
    (hb : net.bodyRecv i = .ok b.reverse)
    (hlen : b.length < U32)
    (ha : b.all (fun x => decide (x < 128)) = true) :
    client_chunk net i = some b.reverse := by
  have hhl : (u16be REVERSE_ANSWER ++ u32be b.length).length = 6 := rfl
  have hval : u32at (u16be REVERSE_ANSWER ++ u32be b.length) 2 = b.length := by
    have h2 := u32at_cons2 0 4 b.length [] hlen
    rw [List.append_nil] at h2
    exact h2
  have hrevlen : b.reverse.length = b.length := List.length_reverse b
  have hpar : parse_packet_c ((u16be REVERSE_ANSWER ++ u32be b.length) ++ b.reverse) =
      .ret (some REVERSE_ANSWER) (.text b.reverse) := by
    have h3 := parse_c_answer b.reverse (by rw [hrevlen]; exact hlen)
      (by rw [List.all_reverse]; exact ha)
    rw [hrevlen] at h3
    rw [List.append_assoc]
    exact h3
  unfold client_chunk
  rw [hh]
  simp only [hhl, hval, hb, hpar]
  simp

lemma client_loop_good (net : ClientNet) :
    ∀ (blocks : List (List Nat)) (i : Nat),
      (∀ j, j < blocks.length →
        net.sendOk (i + j) = true ∧
        net.headerRecv (i + j) =
          .ok (u16be REVERSE_ANSWER ++ u32be (blocks.getD j []).length) ∧
        net.bodyRecv (i + j) = .ok ((blocks.getD j []).reverse)) →
      asciiBlocks blocks = true →
      client_loop net blocks i =
        (blocks.map (fun b => WireMsg.request b),
         blocks.map (fun b => some b.reverse)) := by
  intro blocks
  induction blocks with
  | nil =>
    intro i hg ha
    simp [client_loop]
  | cons b rest ih =>
    intro i hg ha
    have h0 := hg 0 (by simp)
    rw [Nat.add_zero] at h0
    obtain ⟨hs0, hh0, hb0⟩ := h0
    simp only [List.getD_cons_zero] at hh0 hb0
    simp only [asciiBlocks, List.all_cons, Bool.and_eq_true, decide_eq_true_eq] at ha
    have hchunk := client_chunk_good net i b hh0 hb0 ha.1.2 ha.1.1
    have hrest_ascii : asciiBlocks rest = true := by
      simp only [asciiBlocks]
      exact ha.2
    have hrest_good : ∀ j, j < rest.length →
        net.sendOk (i + 1 + j) = true ∧
        net.headerRecv (i + 1 + j) =
          .ok (u16be REVERSE_ANSWER ++ u32be (rest.getD j []).length) ∧
        net.bodyRecv (i + 1 + j) = .ok ((rest.getD j []).reverse) := by
      intro j hj
      have hgj := hg (j + 1) (by simpa using Nat.succ_lt_succ hj)
      rw [show i + (j + 1) = i + 1 + j by omega] at hgj
      simpa using hgj
    rw [client_loop, if_pos hs0, hchunk]
    simp only [ih (i + 1) hrest_good hrest_ascii, List.map_cons]

/-- The client run with a refused connection and an empty block list. -/
def cNetFail : ClientNet :=
  ⟨false, true, .err, fun _ => true, fun _ => .err, fun _ => .err⟩

/-- Claim C1 counterexample: with an empty input (zero chunks) and a failed
connect, every chunk index 0..n-1 vacuously holds a received result, yet no
output file is produced, refuting the produced-iff-all-results-present
biconditional for runs that abort before the chunk phase. -/
theorem client_output_counterexample :
    (client_run cNetFail []).reversed_blocks.all Option.isSome = true ∧
    (client_run cNetFail []).output = none := by decide

/-- Claim C1 (amended): an output file is produced exactly when the handshake
phase completed and every chunk index holds a received result; and against an
oracle that answers every Request with the reversal of the chunk, the output
is the concatenation, in original chunk order, of each chunk's reversed text
(not a full-string reversal).  In particular any chunk-exchange failure
leaves some entry unset and no output is produced. -/
theorem client_output_iff (net : ClientNet) (blocks : List (List Nat)) :
    ((client_run net blocks).output.isSome = true ↔
      handshakeOk net ∧
        (client_run net blocks).reversed_blocks.all Option.isSome = true)
    ∧ (handshakeOk net → asciiBlocks blocks = true → respondsAsReverser net blocks →
        (client_run net blocks).output = some ((blocks.map List.reverse).flatten)) := by
  constructor
  · by_cases hhs : handshakeOk net
    · rw [client_run_hs_output net blocks hhs, client_run_hs_results net blocks hhs]
      by_cases hall : (client_loop net blocks 0).2.all Option.isSome = true
      · rw [if_pos hall]
        simp [hall, hhs]
      · rw [if_neg hall]
        simp [hall]
    · have habort := client_run_abort net blocks hhs
      rw [habort.2]
      simp [hhs]
  · intro hhs hascii hresp
    rw [client_run_hs_output net blocks hhs]
    have hresp0 : ∀ j, j < blocks.length →
        net.sendOk (0 + j) = true ∧
        net.headerRecv (0 + j) =
          .ok (u16be REVERSE_ANSWER ++ u32be (blocks.getD j []).length) ∧
        net.bodyRecv (0 + j) = .ok ((blocks.getD j []).reverse) := by
      intro j hj
      rw [Nat.zero_add]
      exact hresp j hj
    rw [client_loop_good net blocks 0 hresp0 hascii]
    rw [if_pos ?_]
    · rw [List.map_map]
      rfl
    · simp [List.all_eq_true]

/-- The hello world blocks, split with Lmin = Lmax = 5. -/
def hwBlocks : List (List Nat) := split_blocks (fun _ => 5) hwText

/-- An oracle behaving exactly like the server on the hello world run. -/
def hwNet : ClientNet :=
  ⟨true, true, .ok (u16be AGREE), fun _ => true,
   fun j => .ok (u16be REVERSE_ANSWER ++ u32be (hwBlocks.getD j []).length),
   fun j => .ok ((hwBlocks.getD j []).reverse)⟩

/-- Witness for the amended C1: the hello world run writes exactly the
concatenation of the three reversed chunks, ollehlrow d. -/
theorem client_output_iff_witness :
    (client_run hwNet hwBlocks).output =
      some [111, 108, 108, 101, 104, 108, 114, 111, 119, 32, 100] := by
  have h := (client_output_iff hwNet hwBlocks).2
    ⟨rfl, rfl, u16be AGREE, .nil, rfl, by decide, rfl⟩ (by decide)
    (fun j hj => ⟨rfl, rfl, rfl⟩)
  exact h.trans (congrArg some (by decide))

/-- Claim C7: a Request chunk is on the wire only if the handshake succeeded
(connect, Init sent, and a well-formed 2-byte Agree received); conversely on
any handshake failure (connect error, send error, receive error or timeout,
short read, or a response that does not parse as Agree) the run aborts with
no Request sent and no output produced. -/
theorem requests_after_agree (net : ClientNet) (blocks : List (List Nat)) :
    (∀ p, WireMsg.request p ∈ (client_run net blocks).sends → handshakeOk net)
    ∧ (¬ handshakeOk net →
        (∀ p, WireMsg.request p ∉ (client_run net blocks).sends)
        ∧ (client_run net blocks).output = none) := by
  constructor
  · intro p hp
    by_contra h
    rcases (client_run_abort net blocks h).1 with hs | hs <;>
      rw [hs] at hp <;> simp at hp
  · intro h
    refine ⟨?_, (client_run_abort net blocks h).2⟩
    intro p hp
    rcases (client_run_abort net blocks h).1 with hs | hs <;>
      rw [hs] at hp <;> simp at hp

/-- Witness for C7: in the hello world run the first chunk is sent as a
Request, so the theorem yields that the handshake succeeded. -/
theorem requests_after_agree_witness : handshakeOk hwNet :=
  (requests_after_agree hwNet hwBlocks).1 [104, 101, 108, 108, 111] (by decide)

/-- Claim C9: for an empty input text the splitting loop yields zero chunks,
the client sends Init with count 0 and no Request, and the run (with the
handshake succeeding) writes an empty output file, the all-results check
being vacuously true. -/
theorem empty_file_run (net : ClientNet) (rnd : Nat → Nat) (hhs : handshakeOk net) :
    split_blocks rnd [] = []
    ∧ (client_run net (split_blocks rnd [])).sends = [WireMsg.init 0]
    ∧ (client_run net (split_blocks rnd [])).output = some [] := by
  have he : split_blocks rnd [] = [] := rfl
  refine ⟨he, ?_, ?_⟩
  · rw [he, client_run_hs_sends net [] hhs]
    simp [client_loop]
  · rw [he, client_run_hs_output net [] hhs]
    simp [client_loop]

/-- Witness for C9 with the server-like oracle. -/
theorem empty_file_run_witness :
    split_blocks (fun _ => 5) [] = []
    ∧ (client_run hwNet (split_blocks (fun _ => 5) [])).sends = [WireMsg.init 0]
    ∧ (client_run hwNet (split_blocks (fun _ => 5) [])).output = some [] :=
  empty_file_run hwNet (fun _ => 5) ⟨rfl, rfl, u16be AGREE, .nil, rfl, by decide, rfl⟩

/-! Server worker (reversetcpserver.py handle_client, lines 53-135).  The
oracle gives the outcome of the recv(6) of the Init packet and, per chunk
index, the shutdown flag observed at the top of the iteration, the recv(6)
of the Request header and the accumulated body bytes.  A mid-body shutdown
or peer close shows up as short body data, as in the source. -/

structure ServerNet where
  initRecv : RecvRes
  running : Nat → Bool
  headerRecv : Nat → RecvRes
  bodyRecv : Nat → RecvRes

/-- Terminal condition of one server session: all announced chunks processed
(Done), or abandoned by a break or exception (Failed). -/
inductive SessState
  | done
  | failed
  deriving DecidableEq

/-- Observable result of one server session: messages sent and final state. -/
structure SessResult where
  sends : List WireMsg
  state : SessState

/-- One iteration of the chunk loop (lines 79-122): check the shutdown flag,
recv the header, extract the length, accumulate the body, parse, and on a
REVERSE_REQUEST reply with the reversed text; the answer payload is returned,
None encodes any break or exception. -/
def server_chunk (net : ServerNet) (i : Nat) : Option (List Nat) :=
  if net.running i = true then
    match net.headerRecv i with
    | .err => none
    | .ok header =>
      if header.length < 6 then none
      else
        match net.bodyRecv i with
        | .err => none
        | .ok text_data =>
          if text_data.length < u32at header 2 then none
          else
            match parse_packet_s (header ++ text_data) with
            | .exn => none
            | .ret t v =>
              if t = some REVERSE_REQUEST then
                match v with
                | .text s => some s.reverse
                | _ => none
              else none
  else none

/-- The for loop over chunk indices, from index i with k iterations left:
the Answer messages sent, and whether the loop ran to completion. -/
def server_loop (net : ServerNet) (i : Nat) (k : Nat) : List WireMsg × Bool :=
  match k with
  | 0 => ([], true)
  | k + 1 =>
    match server_chunk net i with
    | none => ([], false)
    | some ans =>
      (WireMsg.answer ans :: (server_loop net (i + 1) k).1,
       (server_loop net (i + 1) k).2)

/-- The whole session (lines 61-122): recv the Init packet, validate it,
send Agree, then run the chunk loop; every early return is Failed. -/
def handle_client_model (net : ServerNet) : SessResult :=
  match net.initRecv with
  | .err => ⟨[], .failed⟩
  | .ok data =>
    if data.length < 6 then ⟨[], .failed⟩
    else
      match parse_packet_s data with
      | .exn => ⟨[], .failed⟩
      | .ret t v =>
        if t = some INITIALIZATION then
          match v with
          | .num n =>
            ⟨WireMsg.agree :: (server_loop net 0 n).1,
             if (server_loop net 0 n).2 = true then .done else .failed⟩
          | _ => ⟨[], .failed⟩
        else ⟨[], .failed⟩

/-- The oracle delivers chunk i completely and well-formed, carrying payload
p: the flag is up, the 6-byte header declares the payload length, and the
body arrives in full; the payload is ASCII and below the u32 bound. -/
def goodChunk (net : ServerNet) (i : Nat) (p : List Nat) : Prop :=
  net.running i = true ∧
  net.headerRecv i = .ok (u16be REVERSE_REQUEST ++ u32be p.length) ∧
  net.bodyRecv i = .ok p ∧
  p.length < U32 ∧
  p.all (fun x => decide (x < 128)) = true

lemma server_chunk_good (net : ServerNet) (i : Nat) (p : List Nat)
    (hg : goodChunk net i p) :
    server_chunk net i = some p.reverse := by
  obtain ⟨hrun, hhdr, hbody, hlen, hascii⟩ := hg
  have hhl : (u16be REVERSE_REQUEST ++ u32be p.length).length = 6 := rfl
  have hval : u32at (u16be REVERSE_REQUEST ++ u32be p.length) 2 = p.length := by
    have h2 := u32at_cons2 0 3 p.length [] hlen
    rw [List.append_nil] at h2
    exact h2
  have hpar : parse_packet_s ((u16be REVERSE_REQUEST ++ u32be p.length) ++ p) =
      .ret (some REVERSE_REQUEST) (.text p) := by
    rw [List.append_assoc]
    exact parse_s_request p hlen hascii
  unfold server_chunk
  rw [hrun, hhdr]
  simp only [hhl, hval, hbody, hpar]
  simp

lemma server_loop_good (net : ServerNet) (p : Nat → List Nat) :
    ∀ k i, (∀ j, j < k → goodChunk net (i + j) (p (i + j))) →
      server_loop net i k =
        ((List.range k).map (fun j => WireMsg.answer (p (i + j)).reverse), true) := by
  intro k
  induction k with
  | zero =>
    intro i hg
    simp [server_loop]
  | succ k ih =>
    intro i hg
    have h0 := hg 0 (by omega)
    rw [Nat.add_zero] at h0
    have hc := server_chunk_good net i (p i) h0
    have hrest : ∀ j, j < k → goodChunk net (i + 1 + j) (p (i + 1 + j)) := by
      intro j hj
      have := hg (j + 1) (by omega)
      rwa [show i + (j + 1) = i + 1 + j by omega] at this
    have hx : WireMsg.answer (p i).reverse ::
        (List.range k).map (fun j => WireMsg.answer (p (i + 1 + j)).reverse) =
        (List.range (k + 1)).map (fun j => WireMsg.answer (p (i + j)).reverse) := by
      rw [List.range_succ_eq_map, List.map_cons, List.map_map, Nat.add_zero]
      congr 1
      apply List.map_congr_left
      intro a ha
      show WireMsg.answer (p (i + 1 + a)).reverse
          = WireMsg.answer (p (i + (a + 1))).reverse
      rw [show i + 1 + a = i + (a + 1) by omega]
    rw [server_loop, hc, ih (i + 1) hrest]
    exact congrArg (fun l => (l, true)) hx

/-- Claim C3: when the Init packet announces n chunks and the oracle delivers
every chunk 0..n-1 completely and well-formed, the session replies to each
Request with an Answer whose payload is the byte-for-byte reversal of the
request payload, in index order, and after exactly n chunks reaches Done. -/
theorem server_reverses_chunks (net : ServerNet) (n : Nat) (p : Nat → List Nat)
    (hinit : net.initRecv = .ok (u16be INITIALIZATION ++ u32be n))
    (hn : n < U32)
    (hchunks : ∀ i, i < n → goodChunk net i (p i)) :
    (handle_client_model net).sends =
      WireMsg.agree :: (List.range n).map (fun i => WireMsg.answer (p i).reverse)
    ∧ (handle_client_model net).state = SessState.done := by
  have hp := parse_s_init n hn
  have hloop := server_loop_good net p n 0 (by
    intro j hj
    rw [Nat.zero_add]
    exact hchunks j (by omega))
  have hloop0 : server_loop net 0 n =
      ((List.range n).map (fun i => WireMsg.answer (p i).reverse), true) := by
    rw [hloop]
    congr 1
    apply List.map_congr_left
    intro a ha
    rw [Nat.zero_add]
  have hL : (u16be INITIALIZATION ++ u32be n).length = 6 := rfl
  unfold handle_client_model
  rw [hinit]
  simp [hp, hloop0, hL]

/-- A concrete session oracle: Init announces one chunk, and the single
Request carries the two bytes [104, 105]. -/
def sNet1 : ServerNet :=
  ⟨.ok (u16be INITIALIZATION ++ u32be 1), fun _ => true,
   fun _ => .ok (u16be REVERSE_REQUEST ++ u32be 2),
   fun _ => .ok [104, 105]⟩

/-- Witness for C3: the one-chunk session sends Agree then the reversed
payload [105, 104] and terminates in Done. -/
theorem server_reverses_chunks_witness :
    (handle_client_model sNet1).sends =
      [WireMsg.agree, WireMsg.answer [105, 104]]
    ∧ (handle_client_model sNet1).state = SessState.done := by
  have hgood : ∀ i, i < 1 → goodChunk sNet1 i ((fun _ => [104, 105]) i) := by
    intro i hi
    refine ⟨rfl, rfl, rfl, ?_, ?_⟩
    · show ([104, 105] : List Nat).length < U32
      decide
    · show (([104, 105] : List Nat).all fun x => decide (x < 128)) = true
      decide
  have h := server_reverses_chunks sNet1 1 (fun _ => [104, 105]) rfl (by decide) hgood
  exact ⟨h.1.trans (by decide), h.2⟩

lemma parse_s_init_inv (d : List Nat) (v : PVal)
    (h : parse_packet_s d = .ret (some INITIALIZATION) v) :
    ¬ d.length < 6 := by
  intro h6
  unfold parse_packet_s at h
  split_ifs at h with h1 h2 h3 h4 h5 <;>
    first
      | exact absurd h2.2 (by omega)
      | simp_all [INITIALIZATION, REVERSE_REQUEST]

/-- Claim C8: the session sends an Agree message exactly when the bytes read
for initialization parse as a well-formed Init{n}; on any malformed or
incomplete initialization input the session ends Failed having sent
nothing. -/
theorem agree_iff_init (net : ServerNet) :
    (WireMsg.agree ∈ (handle_client_model net).sends ↔
      ∃ d n, net.initRecv = .ok d ∧
        parse_packet_s d = .ret (some INITIALIZATION) (.num n))
    ∧ ((¬ ∃ d n, net.initRecv = .ok d ∧
          parse_packet_s d = .ret (some INITIALIZATION) (.num n)) →
        (handle_client_model net).sends = [] ∧
          (handle_client_model net).state = SessState.failed) := by
  cases hd : net.initRecv with
  | err =>
    constructor
    · constructor
      · intro hmem
        simp [handle_client_model, hd] at hmem
      · rintro ⟨d, n, hdd, hp⟩
        exact RecvRes.noConfusion hdd
    · intro hno
      simp [handle_client_model, hd]
  | ok data =>
    by_cases h6 : data.length < 6
    · have hno : ¬ ∃ d n, RecvRes.ok data = RecvRes.ok d ∧
          parse_packet_s d = .ret (some INITIALIZATION) (.num n) := by
        rintro ⟨d, n, hdd, hp⟩
        cases hdd
        exact parse_s_init_inv data (.num n) hp h6
      refine ⟨⟨fun hmem => ?_, fun hex => absurd hex hno⟩,
        fun _ => ?_⟩
      · simp [handle_client_model, hd, h6] at hmem
      · constructor <;> simp [handle_client_model, hd, h6]
    · cases hp : parse_packet_s data with
      | exn =>
        have hno : ¬ ∃ d n, RecvRes.ok data = RecvRes.ok d ∧
            parse_packet_s d = .ret (some INITIALIZATION) (.num n) := by
          rintro ⟨d, n, hdd, hpp⟩
          cases hdd
          rw [hp] at hpp
          exact ParseRes.noConfusion hpp
        refine ⟨⟨fun hmem => ?_, fun hex => absurd hex hno⟩, fun _ => ?_⟩
        · simp [handle_client_model, hd, h6, hp] at hmem
        · constructor <;> simp [handle_client_model, hd, h6, hp]
      | ret t v =>
        by_cases ht : t = some INITIALIZATION
        · subst ht
          cases v with
          | num n =>
            constructor
            · constructor
              · intro _
                exact ⟨data, n, rfl, hp⟩
              · intro _
                simp [handle_client_model, hd, h6, hp]
            · intro hno
              exact absurd ⟨data, n, rfl, hp⟩ hno
          | nil =>
            have hno : ¬ ∃ d n, RecvRes.ok data = RecvRes.ok d ∧
                parse_packet_s d = .ret (some INITIALIZATION) (.num n) := by
              rintro ⟨d, n, hdd, hpp⟩
              cases hdd
              rw [hp] at hpp
              simp at hpp
            refine ⟨⟨fun hmem => ?_, fun hex => absurd hex hno⟩, fun _ => ?_⟩
            · simp [handle_client_model, hd, h6, hp] at hmem
            · constructor <;> simp [handle_client_model, hd, h6, hp]
          | text s =>
            have hno : ¬ ∃ d n, RecvRes.ok data = RecvRes.ok d ∧
                parse_packet_s d = .ret (some INITIALIZATION) (.num n) := by
              rintro ⟨d, n, hdd, hpp⟩
              cases hdd
              rw [hp] at hpp
              simp at hpp
            refine ⟨⟨fun hmem => ?_, fun hex => absurd hex hno⟩, fun _ => ?_⟩
            · simp [handle_client_model, hd, h6, hp] at hmem
            · constructor <;> simp [handle_client_model, hd, h6, hp]
        · have hno : ¬ ∃ d n, RecvRes.ok data = RecvRes.ok d ∧
              parse_packet_s d = .ret (some INITIALIZATION) (.num n) := by
            rintro ⟨d, n, hdd, hpp⟩
            cases hdd
            rw [hp] at hpp
            have hti : t = some INITIALIZATION := by
              have h2 := (ParseRes.ret.injEq _ _ _ _).mp hpp
              exact h2.1
            exact ht hti
          refine ⟨⟨fun hmem => ?_, fun hex => absurd hex hno⟩, fun _ => ?_⟩
          · simp [handle_client_model, hd, h6, hp, ht] at hmem
          · constructor <;> simp [handle_client_model, hd, h6, hp, ht]

/-- An oracle whose initialization read fails outright. -/
def sNetBad : ServerNet :=
  ⟨.err, fun _ => true, fun _ => .err, fun _ => .err⟩

/-- Witness for C8: with a failed initialization read the session sends
nothing and ends Failed. -/
theorem agree_iff_init_witness :
    (handle_client_model sNetBad).sends = [] ∧
      (handle_client_model sNetBad).state = SessState.failed :=
  (agree_iff_init sNetBad).2 (by rintro ⟨d, n, hdd, hp⟩; exact RecvRes.noConfusion hdd)

/-! Worker registries (reversetcpserver.py: client_connections and
client_threads, lines 17-18; append at line 59; dispatcher append at line
196; the finally block at lines 125-135).  One worker invocation is modelled
sequentially: the connection is appended on entry, the session runs, and the
finally block removes the connection if present, closes the socket, and
removes the thread if present.  Python list.remove deletes the first
occurrence, which List.erase matches. -/

structure Registries where
  conns : List Nat
  threads : List Nat

/-- handle_client together with its registry bookkeeping: returns the final
registries, whether the socket was closed, and the session result. -/
def handle_client_registry (connId tid : Nat) (reg : Registries) (net : ServerNet) :
    Registries × Bool × SessResult :=
  let conns1 := reg.conns ++ [connId]
  let res := handle_client_model net
  let conns2 := if connId ∈ conns1 then conns1.erase connId else conns1
  let threads2 := if tid ∈ reg.threads then reg.threads.erase tid else reg.threads
  (⟨conns2, threads2⟩, true, res)

/-- Claim C10: whatever the session does (any oracle, hence any exit path --
normal completion, protocol or transport failure, exception, or shutdown
abort), the worker ends with its connection absent from the connection
registry, its thread absent from the thread registry, and its socket closed;
the connection is assumed fresh and the thread registered at most once, as
the dispatcher guarantees. -/
theorem worker_cleanup (connId tid : Nat) (reg : Registries) (net : ServerNet)
    (hc : connId ∉ reg.conns) (ht : reg.threads.count tid ≤ 1) :
    connId ∉ (handle_client_registry connId tid reg net).1.conns
    ∧ tid ∉ (handle_client_registry connId tid reg net).1.threads
    ∧ (handle_client_registry connId tid reg net).2.1 = true := by
  refine ⟨?_, ?_, rfl⟩
  · show connId ∉
      (if connId ∈ reg.conns ++ [connId] then (reg.conns ++ [connId]).erase connId
       else reg.conns ++ [connId])
    rw [if_pos (by simp)]
    rw [List.erase_append_right _ hc]
    simp [hc]
  · show tid ∉
      (if tid ∈ reg.threads then reg.threads.erase tid else reg.threads)
    by_cases hm : tid ∈ reg.threads
    · rw [if_pos hm]
      intro hmem
      have h1 : (reg.threads.erase tid).count tid = reg.threads.count tid - 1 :=
        List.count_erase_self tid reg.threads
      have h2 : 0 < (reg.threads.erase tid).count tid := List.count_pos_iff.mpr hmem
      have h3 : 0 < reg.threads.count tid := List.count_pos_iff.mpr hm
      omega
    · rw [if_neg hm]
      exact hm

/-- Witness for C10: a fresh connection id 1 and registered thread id 2,
against the failing-initialization oracle. -/
theorem worker_cleanup_witness :
    1 ∉ (handle_client_registry 1 2 ⟨[5], [2]⟩ sNetBad).1.conns
    ∧ 2 ∉ (handle_client_registry 1 2 ⟨[5], [2]⟩ sNetBad).1.threads
    ∧ (handle_client_registry 1 2 ⟨[5], [2]⟩ sNetBad).2.1 = true :=
  worker_cleanup 1 2 ⟨[5], [2]⟩ sNetBad (by decide) (by decide)
